import Mathlib

/-!
# Package `admin`: lazy route binding, navigation index and signed session cookie

A shallow embedding of `admin.go` and `auth_session.go`.

* A Go `map[K]V` is a `GoMap`: the entries in the order a `range` statement visits them,
  with pairwise distinct keys. A nil map is `none`, a map made by `make` is `some GoMap.empty`.
  Every statement proved for all `GoMap`s therefore holds for every iteration order.
* A Go method with pointer receiver `*Admin` is a function from the state of the receiver to
  an `Outcome`: the state it leaves, and the panic value when it panics.
* Go strings are byte sequences. Route names, patterns and collection keys are only compared,
  concatenated and split on the ASCII byte `.`; they are Lean `String`s. The request path and
  `Prefix` are sliced by byte length; they are `Bytes`.
-/

namespace admin

/-! ## Go runtime: panics, maps, strings -/

/-- Values a goroutine of this package can panic with. -/
inductive Panic where
  /-- The call `panic(msg)` with a string value. -/
  | str (msg : String)
  /-- The runtime error `runtime.boundsError`: an index or a slice bound out of range. -/
  | boundsError
  /-- The runtime error of a nil pointer dereference. -/
  | nilDereference
  /-- Raised by `(*http.ServeMux).Handle` for the empty pattern. -/
  | muxInvalidPattern
  /-- Raised by `(*http.ServeMux).Handle` for a pattern that is already registered. -/
  | muxMultipleRegistrations (pattern : String)
  deriving DecidableEq, Repr

/-- Result of running a method on a receiver of type `σ`: the state of the receiver when the
method returns, or the panic value together with the state at the moment of the panic. -/
inductive Outcome (σ : Type) where
  | done (s : σ)
  | panicked (p : Panic) (s : σ)
  deriving DecidableEq, Repr

/-- State of the receiver after the call, whether it returned or panicked. -/
def Outcome.state {σ : Type} : Outcome σ → σ
  | .done s => s
  | .panicked _ s => s

/-- A non-nil Go map: its entries in iteration order, keys pairwise distinct. -/
structure GoMap (κ ν : Type) [DecidableEq κ] where
  entries : List (κ × ν)
  nodup : (entries.map Prod.fst).Nodup

namespace GoMap

variable {κ ν : Type} [DecidableEq κ]

instance [DecidableEq ν] : DecidableEq (GoMap κ ν) := fun a b =>
  match a, b with
  | ⟨ea, _⟩, ⟨eb, _⟩ =>
    if h : ea = eb then isTrue (by subst h; rfl)
    else isFalse (fun h2 => h (congrArg GoMap.entries h2))

/-- The map `make(map[K]V)`. -/
def empty : GoMap κ ν := ⟨[], List.nodup_nil⟩

/-- Keys of the map, in iteration order. -/
def keys (m : GoMap κ ν) : List κ := m.entries.map Prod.fst

/-- Number of entries, `len(m)`. -/
def len (m : GoMap κ ν) : Nat := m.entries.length

/-- Lookup in a list of entries. -/
def findEntry (k : κ) : List (κ × ν) → Option ν
  | [] => none
  | e :: es => if e.1 = k then some e.2 else findEntry k es

/-- The comma-ok lookup `v, ok := m[k]`. -/
def get? (m : GoMap κ ν) (k : κ) : Option ν := findEntry k m.entries

/-- The `ok` of `_, ok := m[k]`. -/
def contains (m : GoMap κ ν) (k : κ) : Bool := (m.get? k).isSome

/-- Assignment into a list of entries: replace the value of `k`, or add a new entry. -/
def setEntries (k : κ) (v : ν) : List (κ × ν) → List (κ × ν)
  | [] => [(k, v)]
  | e :: es => if e.1 = k then (k, v) :: es else e :: setEntries k v es

/-- The assignment `m[k] = v`. -/
def set (m : GoMap κ ν) (k : κ) (v : ν) : GoMap κ ν :=
  ⟨setEntries k v m.entries, by
    have key : ∀ es : List (κ × ν), (setEntries k v es).map Prod.fst =
        if k ∈ es.map Prod.fst then es.map Prod.fst else es.map Prod.fst ++ [k] := by
      intro es
      induction es with
      | nil => simp [setEntries]
      | cons e es ih =>
        by_cases h : e.1 = k
        · simp [setEntries, h]
        · have h2 : ¬ k = e.1 := fun h3 => h h3.symm
          simp only [setEntries, h, if_false, List.map_cons, ih, List.mem_cons, h2, false_or]
          split <;> simp
    rw [key]
    split
    · exact m.nodup
    · rename_i hk
      rw [List.nodup_append]
      refine ⟨m.nodup, List.nodup_singleton k, ?_⟩
      intro x hx hx2
      simp only [List.mem_singleton] at hx2
      subst hx2
      exact hk hx⟩

end GoMap

/-- Byte strings: the request path and the mount prefix. -/
abbrev Bytes := List UInt8

/-- Pieces of a character sequence between the occurrences of `sep`. -/
def splitChars (sep : Char) : List Char → List (List Char)
  | [] => [[]]
  | c :: cs =>
    if c = sep then [] :: splitChars sep cs
    else
      match splitChars sep cs with
      | [] => [[c]]
      | p :: ps => (c :: p) :: ps

/-- The call `strings.Split(s, sep)` for a separator of one ASCII character: the substrings
between the separators, one more than there are separators. -/
def Split (s : String) (sep : Char) : List String :=
  (splitChars sep s.data).map String.mk

/-! ## Collaborators declared outside the two source files -/

/-- Modelled from the spec: `collectionInfo` is declared outside `admin.go`; it is the
per-collection metadata, a field list and the identifier field. -/
structure collectionInfo where
  fields : List String
  idField : String
  deriving DecidableEq, Repr

/-- A value of `reflect.Type`, identified by the name of the type. -/
structure ReflectType where
  name : String
  deriving DecidableEq, Repr

/-- A live `*mgo.Session`; the nil pointer is `none`. -/
structure MgoSession where
  handle : Nat
  deriving DecidableEq, Repr

/-- A value of the interface `Authorizer`; the nil interface is `none`. -/
structure Authorizer where
  id : Nat
  deriving DecidableEq, Repr

/-- A value of the interface `Renderer`; the nil interface is `none`. -/
inductive Renderer where
  /-- The renderer that `newDefaultRenderer()` returns. -/
  | default
  /-- A renderer supplied by the caller. -/
  | custom (id : Nat)
  deriving DecidableEq, Repr

/-- Modelled from the spec: `newDefaultRenderer` is declared outside `admin.go`; it yields
the default renderer that is substituted when none is configured. -/
def newDefaultRenderer : Renderer := Renderer.default

/-- The six method values `(*Admin).index`, ..., `(*Admin).delete` that populate `routes`. -/
inductive adminHandler where
  | index | list | update | create | detail | delete
  deriving DecidableEq, Repr

/-! ## `net/http` -/

/-- The handler `http.StripPrefix(r, a.bind(fn))`: the prefix it strips and the `adminHandler`
that `bind` closes over, `none` for the nil function value. -/
structure Handler where
  stripPrefix : String
  fn : Option adminHandler
  deriving DecidableEq, Repr

/-- An `http.ServeMux`: the patterns registered through `Handle`, in registration order. -/
structure ServeMux where
  m : List (String × Handler)
  deriving DecidableEq, Repr

/-- The call `http.NewServeMux()`. -/
def NewServeMux : ServeMux := ⟨[]⟩

/-- Registered patterns of a mux. -/
def ServeMux.patterns (mux : ServeMux) : List String := mux.m.map Prod.fst

/-- Handler registered for a pattern. -/
def ServeMux.handler? (mux : ServeMux) (pattern : String) : Option Handler :=
  GoMap.findEntry pattern mux.m

/-- The call `mux.Handle(pattern, handler)` of the standard library, by its documented contract
(Go 1.0 to 1.21, where a pattern is a plain path): "If a handler already exists for pattern,
Handle panics"; it panics for the empty pattern too, and registers the handler otherwise.
(It also panics for a nil handler; `http.StripPrefix` never returns one.) -/
def ServeMux.Handle (mux : ServeMux) (pattern : String) (handler : Handler) :
    Except Panic ServeMux :=
  if pattern = "" then .error Panic.muxInvalidPattern
  else if pattern ∈ mux.patterns then .error (Panic.muxMultipleRegistrations pattern)
  else .ok ⟨mux.m ++ [(pattern, handler)]⟩

/-- An `*http.Request`, of which the package reads and writes `URL.Path`. -/
structure Request where
  Path : Bytes
  deriving DecidableEq, Repr

/-- A cookie as passed to `http.SetCookie`; the package sets `Name` and `Value` only. -/
structure Cookie where
  Name : String
  Value : String
  deriving DecidableEq, Repr

/-- An `http.ResponseWriter`, of which the package uses the values of the `Set-Cookie`
header lines added to it, in order. -/
structure ResponseWriter where
  setCookies : List String
  deriving DecidableEq, Repr

/-- The token characters of `net/http`: letters, digits and the marks of its token table
(codes 33, 35 to 39, 42, 43, 45, 46, 94, 95, 96, 124, 126). -/
def isTokenRune (c : Char) : Bool :=
  let n := c.toNat
  decide ((48 ≤ n ∧ n ≤ 57) ∨ (65 ≤ n ∧ n ≤ 90) ∨ (97 ≤ n ∧ n ≤ 122) ∨
    n ∈ [33, 35, 36, 37, 38, 39, 42, 43, 45, 46, 94, 95, 96, 124, 126])

/-- The check `isCookieNameValid` of `net/http`: a non-empty name of token characters. -/
def isCookieNameValid (raw : String) : Bool :=
  !raw.data.isEmpty && raw.data.all isTokenRune

/-- The check `validCookieValueByte` of `net/http`: a byte from 0x20 up to 0x7e other than the
double quote (34), the semicolon (59) and the backslash (92). Every byte of a character
outside ASCII fails it, so the check is made per character. -/
def validCookieValueByte (c : Char) : Bool :=
  let n := c.toNat
  decide (32 ≤ n ∧ n < 127 ∧ n ≠ 34 ∧ n ≠ 59 ∧ n ≠ 92)

/-- The function `sanitizeCookieValue` of `net/http`: the bytes that are not valid in a cookie
value are dropped, and what is left is put between double quotes when it holds a space or a
comma. -/
def sanitizeCookieValue (v : String) : String :=
  let kept : String := ⟨v.data.filter validCookieValueByte⟩
  if kept.data.isEmpty then kept
  else if kept.data.any (fun c => c.toNat = 32 || c.toNat = 44) then
    String.singleton (Char.ofNat 34) ++ kept ++ String.singleton (Char.ofNat 34)
  else kept

/-- The method `(*http.Cookie).String` for a cookie with `Name` and `Value` only: the line
`Name=Value` with the value sanitised, or the empty string for an invalid name. -/
def Cookie.serialize (c : Cookie) : String :=
  if isCookieNameValid c.Name then c.Name ++ "=" ++ sanitizeCookieValue c.Value else ""

/-- The call `http.SetCookie(w, cookie)`: the serialised cookie, unless it is empty, is added
to the response as a `Set-Cookie` header line. -/
def SetCookie (w : ResponseWriter) (cookie : Cookie) : ResponseWriter :=
  if cookie.serialize = "" then w else ⟨w.setCookies ++ [cookie.serialize]⟩

/-! ## `admin.go` -/

/-- The struct `Admin`. -/
structure Admin where
  Auth : Option Authorizer
  Session : Option MgoSession
  Renderer : Option Renderer
  Routes : Option (GoMap String String)
  Prefix : Bytes
  server : Option ServeMux
  types : Option (GoMap String collectionInfo)
  index_cache : Option (GoMap String (List String))
  object_id : Option (GoMap ReflectType Int)
  object_coll : Option (GoMap ReflectType String)
  deriving DecidableEq

/-- The package variable `DefaultRoutes`. -/
def DefaultRoutes : GoMap String String :=
  ⟨[("index", "/"), ("list", "/list/"), ("update", "/update/"), ("create", "/create/"),
    ("detail", "/detail/"), ("delete", "/delete/")], by decide⟩

/-- The package variable `routes`. -/
def routes : GoMap String adminHandler :=
  ⟨[("index", adminHandler.index), ("list", adminHandler.list), ("update", adminHandler.update),
    ("create", adminHandler.create), ("detail", adminHandler.detail),
    ("delete", adminHandler.delete)], by decide⟩

/-- The method `initializeCache`. -/
def Admin.initializeCache (a : Admin) : Admin :=
  let a := if a.types.isNone then { a with types := some GoMap.empty } else a
  let a := if a.object_id.isNone then { a with object_id := some GoMap.empty } else a
  let a := if a.object_coll.isNone then { a with object_coll := some GoMap.empty } else a
  a

/-- The local slice `required` of `generateMux`. -/
def required : List String := ["index", "list", "update", "create", "detail", "delete"]

/-- The first loop of `generateMux`: the first `r` of the given names that is not a key of
the route map, at which the loop panics; `none` when the loop runs to its end. -/
def checkRequired (Routes : GoMap String String) : List String → Option String
  | [] => none
  | r :: rest => if Routes.contains r then checkRequired Routes rest else some r

/-- The pattern and handler that the body of the second loop of `generateMux` registers for
one entry of the route map: `r, fn := path, routes[key]` and `http.StripPrefix(r, a.bind(fn))`. -/
def registration (e : String × String) : String × Handler :=
  (e.2, ⟨e.2, routes.get? e.1⟩)

/-- The second loop of `generateMux` over the remaining entries of the route map: each entry
is registered with `Handle`; a panic of `Handle` ends the loop with the mux as it is then. -/
def handleAll (mux : ServeMux) : List (String × String) → ServeMux × Option Panic
  | [] => (mux, none)
  | (key, path) :: rest =>
    match mux.Handle path ⟨path, routes.get? key⟩ with
    | .error p => (mux, some p)
    | .ok mux1 => handleAll mux1 rest

/-- The method `generateMux`. -/
def Admin.generateMux (a : Admin) : Outcome Admin :=
  match a.server with
  | some _ => .done a
  | none =>
    let Routes := match a.Routes with
      | none => DefaultRoutes
      | some r => r
    let a := { a with Routes := some Routes }
    match checkRequired Routes required with
    | some r => .panicked (Panic.str ("Route missing: " ++ r)) a
    | none =>
      match handleAll NewServeMux Routes.entries with
      | (mux, none) => .done { a with server := some mux }
      | (mux, some p) => .panicked p { a with server := some mux }

/-- One iteration of the loop of `generateIndexCache`, for one key of `types`. -/
def indexStep (cache : GoMap String (List String)) (key : String) :
    Except Panic (GoMap String (List String)) :=
  match Split key '.' with
  | p0 :: p1 :: _ => .ok (cache.set p0 ((cache.get? p0).getD [] ++ [p1]))
  | _ => .error Panic.boundsError

/-- The loop of `generateIndexCache` over the remaining keys of `types`. -/
def indexLoop (cache : GoMap String (List String)) :
    List String → GoMap String (List String) × Option Panic
  | [] => (cache, none)
  | key :: rest =>
    match indexStep cache key with
    | .error p => (cache, some p)
    | .ok cache1 => indexLoop cache1 rest

/-- The keys a `range` over `a.types` visits; a nil map has none. -/
def Admin.typeKeys (a : Admin) : List String :=
  match a.types with
  | none => []
  | some t => t.keys

/-- The method `generateIndexCache`. -/
def Admin.generateIndexCache (a : Admin) : Outcome Admin :=
  match a.index_cache with
  | some _ => .done a
  | none =>
    match indexLoop GoMap.empty a.typeKeys with
    | (cache, none) => .done { a with index_cache := some cache }
    | (cache, some p) => .panicked p { a with index_cache := some cache }

/-- What a call of `ServeHTTP` does to the outside, in order. -/
inductive Event where
  /-- The call `a.Renderer.InternalError(w, req, errors.New(msg))`. -/
  | InternalError (r : Renderer) (req : Request) (msg : String)
  /-- The call `a.server.ServeHTTP(w, req)`: route resolution and the handler it selects. -/
  | muxServeHTTP (mux : ServeMux) (req : Request)
  deriving DecidableEq, Repr

/-- Result of one call of `ServeHTTP`: the receiver and the request afterwards, the calls
made to the renderer and to the mux, and the panic if the call panicked. -/
structure Served where
  admin : Admin
  req : Request
  events : List Event
  panic : Option Panic
  deriving DecidableEq

/-- The method `ServeHTTP`. -/
def Admin.ServeHTTP (a : Admin) (req : Request) : Served :=
  let renderer := match a.Renderer with
    | none => newDefaultRenderer
    | some r => r
  let a := { a with Renderer := some renderer }
  match a.Session with
  | none => ⟨a, req, [Event.InternalError renderer req "Mongo session not configured"], none⟩
  | some _ =>
    if req.Path.length < a.Prefix.length then ⟨a, req, [], some Panic.boundsError⟩
    else
      let req := { req with Path := req.Path.drop a.Prefix.length }
      match a.generateMux with
      | .panicked p a => ⟨a, req, [], some p⟩
      | .done a =>
        match a.server with
        | none => ⟨a, req, [], some Panic.nilDereference⟩
        | some mux => ⟨a, req, [Event.muxServeHTTP mux req], none⟩

/-! ## `auth_session.go` -/

/-- The struct `AuthSession`; `Key` is an opaque value. -/
structure AuthSession where
  Username : String
  Key : Nat
  deriving DecidableEq, Repr

/-- A non-nil value of the interface `error`. -/
structure GoError where
  msg : String
  deriving DecidableEq, Repr

/-- A `sign.Signer`: the two results `(data, err)` of its method `Sign` on a session. -/
structure Signer where
  Sign : AuthSession → String × Option GoError

/-- The method `add`: the response afterwards and the error returned. -/
def AuthSession.add (a : AuthSession) (s : Signer) (w : ResponseWriter) :
    ResponseWriter × Option GoError :=
  match s.Sign a with
  | (_, some err) => (w, some err)
  | (data, none) => (SetCookie w ⟨"auth", data⟩, none)

/-- The method `clear`. -/
def AuthSession.clear (_a : AuthSession) (w : ResponseWriter) : ResponseWriter :=
  SetCookie w ⟨"auth", ""⟩

/-! ## Sample values -/

/-- The default routes without the action "delete". -/
def routesWithoutDelete : GoMap String String :=
  ⟨[("index", "/"), ("list", "/list/"), ("update", "/update/"), ("create", "/create/"),
    ("detail", "/detail/")], by decide⟩

/-- An Admin with nothing configured and nothing built. -/
def unconfigured : Admin :=
  { Auth := none, Session := none, Renderer := none, Routes := none, Prefix := [],
    server := none, types := none, index_cache := none, object_id := none,
    object_coll := none }

/-- An unbound Admin with a session whose route map lacks "delete". -/
def adminWithoutDelete : Admin :=
  { unconfigured with Session := some ⟨1⟩, Routes := some routesWithoutDelete }

/-- An unbound Admin with a session, mounted at the prefix "/a" (bytes 47 97). -/
def mounted : Admin :=
  { unconfigured with Session := some ⟨1⟩, Prefix := [47, 97] }

/-- The route table bound from `DefaultRoutes` in the order written in the source. -/
def defaultMux : ServeMux :=
  ⟨[("/", ⟨"/", some adminHandler.index⟩), ("/list/", ⟨"/list/", some adminHandler.list⟩),
    ("/update/", ⟨"/update/", some adminHandler.update⟩),
    ("/create/", ⟨"/create/", some adminHandler.create⟩),
    ("/detail/", ⟨"/detail/", some adminHandler.detail⟩),
    ("/delete/", ⟨"/delete/", some adminHandler.delete⟩)]⟩

/-- The default routes and an extra key whose path repeats the path of "index". -/
def routesDuplicatePath : GoMap String String :=
  ⟨DefaultRoutes.entries ++ [("extra", "/")], by decide⟩

/-- The default routes and an extra key with the empty path. -/
def routesEmptyPath : GoMap String String :=
  ⟨DefaultRoutes.entries ++ [("extra", "")], by decide⟩

/-- The default routes and the extra key "export" at "/export/". -/
def routesExtra : GoMap String String :=
  ⟨DefaultRoutes.entries ++ [("export", "/export/")], by decide⟩

/-- An unbound Admin with a session and the route map `routesDuplicatePath`. -/
def adminDuplicatePath : Admin :=
  { unconfigured with Session := some ⟨1⟩, Routes := some routesDuplicatePath }

/-- An unbound Admin with a session and the route map `routesEmptyPath`. -/
def adminEmptyPath : Admin :=
  { unconfigured with Session := some ⟨1⟩, Routes := some routesEmptyPath }

/-- An unbound Admin with a session and the route map `routesExtra`. -/
def adminExtraRoute : Admin :=
  { unconfigured with Session := some ⟨1⟩, Routes := some routesExtra }

/-- A registry with three collections in two databases. -/
def sampleTypes : GoMap String collectionInfo :=
  ⟨[("db.coll", ⟨["_id", "name"], "_id"⟩), ("db2.x", ⟨["_id"], "_id"⟩),
    ("db.other", ⟨["_id"], "_id"⟩)], by decide⟩

/-- An Admin whose registry is `sampleTypes` and whose index is not built. -/
def registered : Admin :=
  { unconfigured with Session := some ⟨1⟩, types := some sampleTypes }

/-- The index of `sampleTypes`. -/
def sampleIndex : GoMap String (List String) :=
  ⟨[("db", ["coll", "other"]), ("db2", ["x"])], by decide⟩

/-- A session to sign. -/
def sampleSession : AuthSession := ⟨"alice", 7⟩

/-- A signer whose key is unavailable. -/
def failingSigner : Signer := ⟨fun _ => ("", some ⟨"no key"⟩)⟩

/-- A signer whose output holds a semicolon. -/
def semicolonSigner : Signer := ⟨fun _ => ("a;b", none)⟩

/-- A signer that tags the user name. -/
def tagSigner : Signer := ⟨fun a => ("signed:" ++ a.Username, none)⟩

/-! ## Lemmas on maps and on the two loops of `generateMux` -/

theorem GoMap.findEntry_isSome {κ ν : Type} [DecidableEq κ] (k : κ) (es : List (κ × ν)) :
    (GoMap.findEntry k es).isSome = true ↔ k ∈ es.map Prod.fst := by
  induction es with
  | nil => simp [GoMap.findEntry]
  | cons e es ih =>
    by_cases h : e.1 = k
    · simp [GoMap.findEntry, h]
    · have h2 : ¬ k = e.1 := fun h3 => h h3.symm
      simp [GoMap.findEntry, h, h2, ih]

theorem GoMap.contains_iff {κ ν : Type} [DecidableEq κ] (m : GoMap κ ν) (k : κ) :
    m.contains k = true ↔ k ∈ m.keys := by
  unfold GoMap.contains GoMap.get? GoMap.keys
  exact GoMap.findEntry_isSome k m.entries

theorem checkRequired_none (Routes : GoMap String String) (l : List String) :
    checkRequired Routes l = none ↔ ∀ k ∈ l, k ∈ Routes.keys := by
  induction l with
  | nil => simp [checkRequired]
  | cons r rest ih =>
    by_cases h : Routes.contains r = true
    · have h2 := (GoMap.contains_iff Routes r).1 h
      simp [checkRequired, h, ih, h2]
    · have h2 : r ∉ Routes.keys := fun h3 => h ((GoMap.contains_iff Routes r).2 h3)
      simp [checkRequired, h, h2]

theorem checkRequired_first (Routes : GoMap String String) (l : List String)
    (hmiss : ∃ k ∈ l, k ∉ Routes.keys) :
    ∃ pre k post, l = pre ++ k :: post ∧ (∀ x ∈ pre, x ∈ Routes.keys) ∧ k ∉ Routes.keys ∧
      checkRequired Routes l = some k := by
  induction l with
  | nil => simp at hmiss
  | cons r rest ih =>
    by_cases h : Routes.contains r = true
    · have h2 := (GoMap.contains_iff Routes r).1 h
      have hrest : ∃ k ∈ rest, k ∉ Routes.keys := by
        obtain ⟨k, hk, hk2⟩ := hmiss
        rcases List.mem_cons.1 hk with rfl | hk3
        · exact absurd h2 hk2
        · exact ⟨k, hk3, hk2⟩
      obtain ⟨pre, k, post, e, hpre, hk, hc⟩ := ih hrest
      refine ⟨r :: pre, k, post, by simp [e], ?_, hk, by simp [checkRequired, h, hc]⟩
      intro x hx
      rcases List.mem_cons.1 hx with rfl | hx2
      · exact h2
      · exact hpre x hx2
    · have h2 : r ∉ Routes.keys := fun h3 => h ((GoMap.contains_iff Routes r).2 h3)
      exact ⟨[], r, rest, rfl, by simp, h2, by simp [checkRequired, h]⟩

theorem handleAll_panic_ne_bounds (l : List (String × String)) (mux mux1 : ServeMux) (p : Panic)
    (h : handleAll mux l = (mux1, some p)) : p ≠ Panic.boundsError := by
  induction l generalizing mux with
  | nil => simp [handleAll] at h
  | cons e rest ih =>
    obtain ⟨key, path⟩ := e
    unfold handleAll at h
    unfold ServeMux.Handle at h
    split at h
    · rename_i q hq
      split at hq
      · cases hq
        simp only [Prod.mk.injEq, Option.some.injEq] at h
        rw [← h.2]
        simp
      · split at hq
        · cases hq
          simp only [Prod.mk.injEq, Option.some.injEq] at h
          rw [← h.2]
          simp
        · cases hq
    · exact ih _ h

theorem generateMux_bound (a : Admin) (mux : ServeMux) (h : a.server = some mux) :
    a.generateMux = Outcome.done a := by
  unfold Admin.generateMux
  rw [h]

theorem generateMux_panic_ne_bounds (a a1 : Admin) (p : Panic)
    (h : a.generateMux = Outcome.panicked p a1) : p ≠ Panic.boundsError := by
  unfold Admin.generateMux at h
  split at h
  · cases h
  · simp only at h
    split at h
    · cases h
      simp
    · split at h
      · cases h
      · rename_i mux q hq
        cases h
        exact handleAll_panic_ne_bounds _ _ _ _ hq

theorem generateMux_done_server (a a1 : Admin) (h : a.generateMux = Outcome.done a1) :
    ∃ mux, a1.server = some mux := by
  unfold Admin.generateMux at h
  split at h
  · rename_i mux hm
    cases h
    exact ⟨mux, hm⟩
  · simp only at h
    split at h
    · cases h
    · split at h
      · rename_i mux _
        cases h
        exact ⟨mux, rfl⟩
      · cases h

/-! ## Route binding: failure on a missing action -/

/-- C1: on an Admin that is not bound and whose Routes is a non-nil map lacking one of the six
required keys, generateMux panics with "Route missing: k" for the first required key k that
is missing (every required key before k is present), and leaves the receiver as it was, so
server is still nil. -/
theorem C1_generateMux_route_missing (a : Admin) (r : GoMap String String)
    (hs : a.server = none) (hr : a.Routes = some r)
    (hmiss : ∃ k ∈ required, k ∉ r.keys) :
    ∃ pre k post, required = pre ++ k :: post ∧ (∀ x ∈ pre, x ∈ r.keys) ∧ k ∉ r.keys ∧
      a.generateMux = Outcome.panicked (Panic.str ("Route missing: " ++ k)) a ∧
      a.generateMux.state.server = none := by
  obtain ⟨pre, k, post, e, hpre, hk, hc⟩ := checkRequired_first r required hmiss
  have hrun : a.generateMux = Outcome.panicked (Panic.str ("Route missing: " ++ k)) a := by
    cases a
    simp only at hs hr
    subst hs hr
    simp only [Admin.generateMux, hc]
  refine ⟨pre, k, post, e, hpre, hk, hrun, ?_⟩
  rw [hrun]
  exact hs

/-- Instance of C1: the default routes without "delete", and the empty route map. -/
theorem C1_generateMux_route_missing_witness :
    ∃ pre k post, required = pre ++ k :: post ∧ (∀ x ∈ pre, x ∈ routesWithoutDelete.keys) ∧
      k ∉ routesWithoutDelete.keys ∧
      adminWithoutDelete.generateMux =
        Outcome.panicked (Panic.str ("Route missing: " ++ k)) adminWithoutDelete ∧
      adminWithoutDelete.generateMux.state.server = none :=
  C1_generateMux_route_missing adminWithoutDelete routesWithoutDelete rfl rfl
    ⟨"delete", by decide, by decide⟩

/-! ## `ServeHTTP` without a database session -/

/-- C2: when Session is nil, ServeHTTP substitutes the default renderer if none is configured,
calls InternalError on the renderer exactly once and returns: the request is not modified, no
call reaches the mux, server and every field other than Renderer are as before, and the call
does not panic. -/
theorem C2_ServeHTTP_nil_session (a : Admin) (req : Request) (h : a.Session = none) :
    a.ServeHTTP req =
      ⟨{ a with Renderer := some (a.Renderer.getD newDefaultRenderer) }, req,
        [Event.InternalError (a.Renderer.getD newDefaultRenderer) req
          "Mongo session not configured"], none⟩ ∧
    (a.ServeHTTP req).req = req ∧
    (a.ServeHTTP req).admin.server = a.server ∧
    (a.ServeHTTP req).admin.Routes = a.Routes ∧
    (∀ mux r, Event.muxServeHTTP mux r ∉ (a.ServeHTTP req).events) ∧
    ((a.ServeHTTP req).events.filter
      (fun e => match e with | Event.InternalError _ _ _ => true | _ => false)).length = 1 := by
  have hrun : a.ServeHTTP req =
      ⟨{ a with Renderer := some (a.Renderer.getD newDefaultRenderer) }, req,
        [Event.InternalError (a.Renderer.getD newDefaultRenderer) req
          "Mongo session not configured"], none⟩ := by
    unfold Admin.ServeHTTP
    cases hr : a.Renderer <;> simp [h]
  rw [hrun]
  simp

/-- Instance of C2: an Admin with no session, no renderer and no route table. -/
theorem C2_ServeHTTP_nil_session_witness :
    unconfigured.ServeHTTP ⟨[47, 120]⟩ =
      ⟨{ unconfigured with Renderer := some (unconfigured.Renderer.getD newDefaultRenderer) },
        ⟨[47, 120]⟩,
        [Event.InternalError (unconfigured.Renderer.getD newDefaultRenderer) ⟨[47, 120]⟩
          "Mongo session not configured"], none⟩ ∧
    (unconfigured.ServeHTTP ⟨[47, 120]⟩).req = ⟨[47, 120]⟩ ∧
    (unconfigured.ServeHTTP ⟨[47, 120]⟩).admin.server = unconfigured.server ∧
    (unconfigured.ServeHTTP ⟨[47, 120]⟩).admin.Routes = unconfigured.Routes ∧
    (∀ mux r, Event.muxServeHTTP mux r ∉ (unconfigured.ServeHTTP ⟨[47, 120]⟩).events) ∧
    ((unconfigured.ServeHTTP ⟨[47, 120]⟩).events.filter
      (fun e => match e with | Event.InternalError _ _ _ => true | _ => false)).length = 1 :=
  C2_ServeHTTP_nil_session unconfigured ⟨[47, 120]⟩ rfl

/-! ## The signed session cookie -/

theorem sanitizeCookieValue_of_valid (v : String)
    (h : ∀ c ∈ v.data, validCookieValueByte c = true ∧ c.toNat ≠ 32 ∧ c.toNat ≠ 44) :
    sanitizeCookieValue v = v := by
  have hf : v.data.filter validCookieValueByte = v.data :=
    List.filter_eq_self.2 (fun c hc => (h c hc).1)
  have hany : v.data.any (fun c => c.toNat = 32 || c.toNat = 44) = false := by
    rw [List.any_eq_false]
    intro c hc
    have := h c hc
    simp [this.2.1, this.2.2]
  unfold sanitizeCookieValue
  simp only [hf, hany]
  split <;> rfl

theorem SetCookie_auth (w : ResponseWriter) (v : String) :
    SetCookie w ⟨"auth", v⟩ = ⟨w.setCookies ++ ["auth=" ++ sanitizeCookieValue v]⟩ := by
  have hname : isCookieNameValid "auth" = true := by decide
  have hline : (Cookie.mk "auth" v).serialize = "auth=" ++ sanitizeCookieValue v := by
    simp only [Cookie.serialize, hname, if_true]
    apply String.ext
    simp [String.data_append]
  have hne : ¬ ("auth=" ++ sanitizeCookieValue v = "") := by
    intro h
    have h2 := congrArg String.data h
    simp [String.data_append] at h2
  unfold SetCookie
  rw [hline, if_neg hne]

/-- C4, as stated, fails on the cookie value: for a signer that returns "a;b" without an
error, add returns nil and sets one cookie named "auth", but its value is "ab", not the
string the signer produced, since http.SetCookie drops the semicolon. -/
theorem C4_counterexample_semicolon :
    semicolonSigner.Sign sampleSession = ("a;b", none) ∧
    sampleSession.add semicolonSigner ⟨[]⟩ = (⟨["auth=ab"]⟩, none) ∧
    sampleSession.add semicolonSigner ⟨[]⟩ ≠ (⟨["auth=a;b"]⟩, none) := by
  decide

/-- C4, amended: add returns exactly the error of the signer and leaves the response untouched
when Sign fails. When Sign succeeds add returns nil and adds exactly one cookie to the response,
named "auth", whose value is the string the signer produced as http.SetCookie writes it: without
the bytes that are not valid in a cookie value, and between double quotes if it holds a space or
a comma. The value is exactly the signer's string whenever that string consists of valid
cookie-value bytes other than space and comma. -/
theorem C4_add_sets_sanitised_cookie (a : AuthSession) (s : Signer) (w : ResponseWriter) :
    (∀ e, (s.Sign a).2 = some e → a.add s w = (w, some e)) ∧
    ((s.Sign a).2 = none →
      a.add s w =
        (⟨w.setCookies ++ ["auth=" ++ sanitizeCookieValue (s.Sign a).1]⟩, none)) ∧
    ((s.Sign a).2 = none →
      (∀ c ∈ (s.Sign a).1.data,
        validCookieValueByte c = true ∧ c.toNat ≠ 32 ∧ c.toNat ≠ 44) →
      a.add s w = (⟨w.setCookies ++ ["auth=" ++ (s.Sign a).1]⟩, none)) := by
  have hok : (s.Sign a).2 = none →
      a.add s w =
        (⟨w.setCookies ++ ["auth=" ++ sanitizeCookieValue (s.Sign a).1]⟩, none) := by
    intro he
    unfold AuthSession.add
    cases hs : s.Sign a with
    | mk data err =>
      rw [hs] at he
      simp only at he
      subst he
      simp only [SetCookie_auth]
  refine ⟨?_, hok, ?_⟩
  · intro e he
    unfold AuthSession.add
    cases hs : s.Sign a with
    | mk data err =>
      rw [hs] at he
      simp only at he
      subst he
      rfl
  · intro he hv
    rw [hok he, sanitizeCookieValue_of_valid _ hv]

/-- Instance of C4: a signer that fails and a signer that signs, on the same session. -/
theorem C4_add_sets_sanitised_cookie_witness :
    sampleSession.add failingSigner ⟨[]⟩ = (⟨[]⟩, some ⟨"no key"⟩) ∧
    sampleSession.add tagSigner ⟨[]⟩ = (⟨["auth=signed:alice"]⟩, none) :=
  ⟨(C4_add_sets_sanitised_cookie sampleSession failingSigner ⟨[]⟩).1 ⟨"no key"⟩ rfl,
   (C4_add_sets_sanitised_cookie sampleSession tagSigner ⟨[]⟩).2.2 rfl (by decide)⟩

/-! ## `ServeHTTP` with a database session: prefix stripping -/

/-- The receiver of `ServeHTTP` once the renderer has been substituted. -/
theorem ServeHTTP_with_session (a : Admin) (s : MgoSession) (req : Request)
    (hs : a.Session = some s) :
    a.ServeHTTP req =
      if req.Path.length < a.Prefix.length then
        ⟨{ a with Renderer := some (a.Renderer.getD newDefaultRenderer) }, req, [],
          some Panic.boundsError⟩
      else
        match ({ a with Renderer := some (a.Renderer.getD newDefaultRenderer) }).generateMux with
        | .panicked p a2 => ⟨a2, ⟨req.Path.drop a.Prefix.length⟩, [], some p⟩
        | .done a2 =>
          match a2.server with
          | none => ⟨a2, ⟨req.Path.drop a.Prefix.length⟩, [], some Panic.nilDereference⟩
          | some mux =>
            ⟨a2, ⟨req.Path.drop a.Prefix.length⟩,
              [Event.muxServeHTTP mux ⟨req.Path.drop a.Prefix.length⟩], none⟩ := by
  unfold Admin.ServeHTTP
  cases hr : a.Renderer <;> simp only [hs, Option.getD]

/-- C6: with a session, ServeHTTP strips the prefix by byte length. The slicing panics with a
bounds error exactly when the path is shorter than Prefix, and then nothing is rendered or
routed and the request is untouched. Otherwise the request path becomes the path without its
first len(Prefix) bytes, that is the only path ever handed to the mux, and it is handed over
whenever the call does not panic; when the path starts with Prefix, Prefix followed by the
stripped path is the original path. -/
theorem C6_ServeHTTP_strips_prefix (a : Admin) (s : MgoSession) (req : Request)
    (hs : a.Session = some s) :
    ((a.ServeHTTP req).panic = some Panic.boundsError ↔ req.Path.length < a.Prefix.length) ∧
    (req.Path.length < a.Prefix.length →
      (a.ServeHTTP req).events = [] ∧ (a.ServeHTTP req).req = req ∧
      (a.ServeHTTP req).admin.server = a.server) ∧
    (a.Prefix.length ≤ req.Path.length →
      (a.ServeHTTP req).req.Path = req.Path.drop a.Prefix.length ∧
      (∀ mux r, Event.muxServeHTTP mux r ∈ (a.ServeHTTP req).events →
        r.Path = req.Path.drop a.Prefix.length) ∧
      ((a.ServeHTTP req).panic = none →
        ∃ mux, (a.ServeHTTP req).events =
          [Event.muxServeHTTP mux ⟨req.Path.drop a.Prefix.length⟩])) ∧
    (a.Prefix <+: req.Path → a.Prefix ++ (a.ServeHTTP req).req.Path = req.Path) := by
  have key := ServeHTTP_with_session a s req hs
  by_cases hlt : req.Path.length < a.Prefix.length
  · rw [if_pos hlt] at key
    rw [key]
    refine ⟨by simp [hlt], fun _ => ⟨rfl, rfl, rfl⟩, fun hle => absurd hlt (by omega), ?_⟩
    intro hp
    have := hp.length_le
    omega
  · rw [if_neg hlt] at key
    have hpre : a.Prefix <+: req.Path →
        a.Prefix ++ req.Path.drop a.Prefix.length = req.Path :=
      fun hp => List.prefix_iff_eq_append.1 hp
    cases hg : ({ a with Renderer := some (a.Renderer.getD newDefaultRenderer) }).generateMux with
    | panicked p a2 =>
      rw [hg] at key
      simp only at key
      rw [key]
      have hne := generateMux_panic_ne_bounds _ _ _ hg
      refine ⟨by simp [hlt, hne], fun h => absurd h hlt, fun _ => ⟨rfl, by simp, by simp⟩, hpre⟩
    | done a2 =>
      obtain ⟨mux, hm⟩ := generateMux_done_server _ _ hg
      rw [hg] at key
      simp only [hm] at key
      rw [key]
      refine ⟨by simp [hlt], fun h => absurd h hlt, fun _ => ⟨rfl, ?_, fun _ => ⟨mux, rfl⟩⟩, hpre⟩
      intro mux1 r hmem
      simp only [List.mem_singleton, Event.muxServeHTTP.injEq] at hmem
      rw [hmem.2]

/-- Instance of C6: the prefix "/a" (bytes 47 97) on the path "/a/x" with the default routes. -/
theorem C6_ServeHTTP_strips_prefix_witness :
    ((mounted.ServeHTTP ⟨[47, 97, 47, 120]⟩).panic = some Panic.boundsError ↔
      ([47, 97, 47, 120] : Bytes).length < mounted.Prefix.length) ∧
    (([47, 97, 47, 120] : Bytes).length < mounted.Prefix.length →
      (mounted.ServeHTTP ⟨[47, 97, 47, 120]⟩).events = [] ∧
      (mounted.ServeHTTP ⟨[47, 97, 47, 120]⟩).req = ⟨[47, 97, 47, 120]⟩ ∧
      (mounted.ServeHTTP ⟨[47, 97, 47, 120]⟩).admin.server = mounted.server) ∧
    (mounted.Prefix.length ≤ ([47, 97, 47, 120] : Bytes).length →
      (mounted.ServeHTTP ⟨[47, 97, 47, 120]⟩).req.Path =
        ([47, 97, 47, 120] : Bytes).drop mounted.Prefix.length ∧
      (∀ mux r, Event.muxServeHTTP mux r ∈ (mounted.ServeHTTP ⟨[47, 97, 47, 120]⟩).events →
        r.Path = ([47, 97, 47, 120] : Bytes).drop mounted.Prefix.length) ∧
      ((mounted.ServeHTTP ⟨[47, 97, 47, 120]⟩).panic = none →
        ∃ mux, (mounted.ServeHTTP ⟨[47, 97, 47, 120]⟩).events =
          [Event.muxServeHTTP mux ⟨([47, 97, 47, 120] : Bytes).drop mounted.Prefix.length⟩])) ∧
    (mounted.Prefix <+: ([47, 97, 47, 120] : Bytes) →
      mounted.Prefix ++ (mounted.ServeHTTP ⟨[47, 97, 47, 120]⟩).req.Path =
        [47, 97, 47, 120]) :=
  C6_ServeHTTP_strips_prefix mounted ⟨1⟩ ⟨[47, 97, 47, 120]⟩ rfl

/-! ## Lazy construction: built once, never rebuilt -/

theorem generateIndexCache_built (a : Admin) (cache : GoMap String (List String))
    (h : a.index_cache = some cache) : a.generateIndexCache = Outcome.done a := by
  unfold Admin.generateIndexCache
  rw [h]

/-- C7: once index_cache is non-nil, generateIndexCache returns at once and changes no field,
whatever the keys of types are; replacing types by any other map (one with more keys, say)
before the call changes nothing either, and index_cache stays the index of the first build. -/
theorem C7_generateIndexCache_only_if_absent (a : Admin) (cache : GoMap String (List String))
    (h : a.index_cache = some cache) :
    a.generateIndexCache = Outcome.done a ∧
    ∀ t, ({ a with types := t }).generateIndexCache = Outcome.done { a with types := t } ∧
      ({ a with types := t }).generateIndexCache.state.index_cache = some cache := by
  refine ⟨generateIndexCache_built a cache h, fun t => ?_⟩
  have h2 := generateIndexCache_built { a with types := t } cache h
  rw [h2]
  exact ⟨rfl, h⟩

/-- Instance of C7: the first build over the empty registry gives the empty, non-nil index;
registering "db.coll" afterwards and building again leaves the index empty. -/
theorem C7_generateIndexCache_only_if_absent_witness :
    unconfigured.generateIndexCache.state.index_cache = some GoMap.empty ∧
    unconfigured.generateIndexCache.state.generateIndexCache =
      Outcome.done unconfigured.generateIndexCache.state ∧
    ∀ t, ({ unconfigured.generateIndexCache.state with types := t }).generateIndexCache =
        Outcome.done { unconfigured.generateIndexCache.state with types := t } ∧
      ({ unconfigured.generateIndexCache.state with types := t }).generateIndexCache.state.index_cache
        = some GoMap.empty :=
  ⟨rfl, C7_generateIndexCache_only_if_absent unconfigured.generateIndexCache.state GoMap.empty rfl⟩

theorem generateMux_unbound (a : Admin) (h : a.server = none) :
    a.generateMux =
      match checkRequired (a.Routes.getD DefaultRoutes) required with
      | some r =>
        Outcome.panicked (Panic.str ("Route missing: " ++ r))
          { a with Routes := some (a.Routes.getD DefaultRoutes) }
      | none =>
        match handleAll NewServeMux (a.Routes.getD DefaultRoutes).entries with
        | (mux, none) =>
          Outcome.done { a with Routes := some (a.Routes.getD DefaultRoutes), server := some mux }
        | (mux, some p) =>
          Outcome.panicked p
            { a with Routes := some (a.Routes.getD DefaultRoutes), server := some mux } := by
  unfold Admin.generateMux
  rw [h]
  cases a.Routes <;> rfl

theorem generateMux_state_twice (a : Admin) :
    a.generateMux.state.generateMux.state = a.generateMux.state := by
  cases hsv : a.server with
  | some mux =>
    rw [generateMux_bound a mux hsv]
    simp only [Outcome.state]
    rw [generateMux_bound a mux hsv]
  | none =>
    have key := generateMux_unbound a hsv
    cases hc : checkRequired (a.Routes.getD DefaultRoutes) required with
    | some r =>
      rw [hc] at key
      simp only at key
      rw [key]
      simp only [Outcome.state]
      have key2 := generateMux_unbound { a with Routes := some (a.Routes.getD DefaultRoutes) } hsv
      simp only [Option.getD_some, hc] at key2
      rw [key2]
    | none =>
      rw [hc] at key
      simp only at key
      cases hh : handleAll NewServeMux (a.Routes.getD DefaultRoutes).entries with
      | mk mux q =>
        rw [hh] at key
        cases q with
        | none =>
          simp only at key
          rw [key]
          simp only [Outcome.state]
          rw [generateMux_bound _ mux rfl]
        | some p =>
          simp only at key
          rw [key]
          simp only [Outcome.state]
          rw [generateMux_bound _ mux rfl]

theorem generateMux_keeps_server (a : Admin) (mux : ServeMux) (h : a.server = some mux) :
    a.generateMux.state.server = some mux := by
  rw [generateMux_bound a mux h]
  exact h

theorem ServeHTTP_keeps_server (a : Admin) (req : Request) (mux : ServeMux)
    (h : a.server = some mux) : (a.ServeHTTP req).admin.server = some mux := by
  have hb : ({ a with Renderer := some (a.Renderer.getD newDefaultRenderer) }).generateMux =
      Outcome.done { a with Renderer := some (a.Renderer.getD newDefaultRenderer) } :=
    generateMux_bound _ mux h
  cases hs : a.Session with
  | none =>
    unfold Admin.ServeHTTP
    cases hr : a.Renderer <;> simp [hs, h]
  | some s =>
    rw [ServeHTTP_with_session a s req hs]
    split
    · exact h
    · rw [hb]
      simp only [h]

/-- C8: initializeCache makes an empty map for each of types, object_id and object_coll that is
nil and keeps every one that is not, so a second call changes nothing; generateMux on a bound
Admin returns the Admin unchanged; running generateMux on the state it left (after a return or
a panic) leaves that state, and after a return the second call returns too; and the operations
initializeCache, generateMux, generateIndexCache and ServeHTTP keep a non-nil server as it is. -/
theorem C8_lazy_initialisation_idempotent (a : Admin) :
    a.initializeCache =
      { a with types := some (a.types.getD GoMap.empty),
               object_id := some (a.object_id.getD GoMap.empty),
               object_coll := some (a.object_coll.getD GoMap.empty) } ∧
    a.initializeCache.initializeCache = a.initializeCache ∧
    (∀ mux, a.server = some mux → a.generateMux = Outcome.done a) ∧
    a.generateMux.state.generateMux.state = a.generateMux.state ∧
    (∀ a1, a.generateMux = Outcome.done a1 → a1.generateMux = Outcome.done a1) ∧
    (∀ mux, a.server = some mux →
      a.initializeCache.server = some mux ∧ a.generateMux.state.server = some mux ∧
      a.generateIndexCache.state.server = some mux ∧
      ∀ req, (a.ServeHTTP req).admin.server = some mux) := by
  refine ⟨?_, ?_, fun mux h => generateMux_bound a mux h, generateMux_state_twice a, ?_, ?_⟩
  · cases a
    rename_i ty _ oi oc
    cases ty <;> cases oi <;> cases oc <;> rfl
  · cases a
    rename_i ty _ oi oc
    cases ty <;> cases oi <;> cases oc <;> rfl
  · intro a1 h1
    obtain ⟨mux, hm⟩ := generateMux_done_server a a1 h1
    exact generateMux_bound a1 mux hm
  · intro mux h
    refine ⟨?_, generateMux_keeps_server a mux h, ?_, fun req => ServeHTTP_keeps_server a req mux h⟩
    · cases a
      rename_i ty _ oi oc
      simp only at h
      subst h
      cases ty <;> cases oi <;> cases oc <;> rfl
    · unfold Admin.generateIndexCache
      cases hi : a.index_cache with
      | some c => exact h
      | none =>
        simp only
        split <;> exact h

/-- Instance of C8: the Admin that generateMux leaves when it binds the default routes. -/
theorem C8_lazy_initialisation_idempotent_witness :
    mounted.generateMux.state.server = some defaultMux ∧
    mounted.generateMux.state.generateMux = Outcome.done mounted.generateMux.state ∧
    mounted.generateMux.state.initializeCache.server = some defaultMux ∧
    mounted.generateMux.state.initializeCache.types = some GoMap.empty :=
  ⟨rfl,
   (C8_lazy_initialisation_idempotent mounted.generateMux.state).2.2.1 defaultMux rfl,
   ((C8_lazy_initialisation_idempotent mounted.generateMux.state).2.2.2.2.2 defaultMux rfl).1,
   rfl⟩

/-! ## Route binding: success -/

theorem findEntry_of_mem {κ ν : Type} [DecidableEq κ] (l : List (κ × ν)) (k : κ) (v : ν)
    (hnd : (l.map Prod.fst).Nodup) (hm : (k, v) ∈ l) : GoMap.findEntry k l = some v := by
  induction l with
  | nil => simp at hm
  | cons e es ih =>
    rw [List.map_cons, List.nodup_cons] at hnd
    rcases List.mem_cons.1 hm with he | he
    · subst he
      simp [GoMap.findEntry]
    · have hk : k ∈ es.map Prod.fst := List.mem_map.2 ⟨(k, v), he, rfl⟩
      have hne : ¬ e.1 = k := fun h => hnd.1 (h ▸ hk)
      simp only [GoMap.findEntry, hne, if_false]
      exact ih hnd.2 he

/-- The registrations the second loop of `generateMux` makes for a list of routes. -/
theorem handleAll_ok (l : List (String × String)) (mux : ServeMux)
    (hnd : (mux.patterns ++ l.map Prod.snd).Nodup) (hne : ∀ e ∈ l, e.2 ≠ "") :
    handleAll mux l =
      (⟨mux.m ++ l.map registration⟩, none) := by
  induction l generalizing mux with
  | nil => simp [handleAll]
  | cons e rest ih =>
    obtain ⟨key, path⟩ := e
    have h1 : path ≠ "" := hne (key, path) (List.mem_cons_self _ _)
    have h2 : path ∉ mux.patterns := by
      intro hin
      rw [List.nodup_append] at hnd
      exact hnd.2.2 hin (by simp)
    have hstep : mux.Handle path ⟨path, routes.get? key⟩ =
        Except.ok ⟨mux.m ++ [(path, ⟨path, routes.get? key⟩)]⟩ := by
      unfold ServeMux.Handle
      rw [if_neg h1, if_neg h2]
    unfold handleAll
    rw [hstep]
    simp only
    rw [ih]
    · simp [registration]
    · simp only [ServeMux.patterns, List.map_append, List.map_cons, List.map_nil,
        List.append_assoc, List.singleton_append]
      simpa [ServeMux.patterns] using hnd
    · intro e he
      exact hne e (List.mem_cons_of_mem _ he)

/-- The route table `generateMux` installs for a complete route map with pairwise distinct,
non-empty paths: one registration per entry, in iteration order. -/
theorem generateMux_binds (a : Admin) (r : GoMap String String)
    (hs : a.server = none) (hr : a.Routes = some r)
    (hreq : ∀ k ∈ required, k ∈ r.keys)
    (hnd : (r.entries.map Prod.snd).Nodup) (hne : ∀ e ∈ r.entries, e.2 ≠ "") :
    a.generateMux =
      Outcome.done { a with server := some (ServeMux.mk (r.entries.map registration)) } := by
  have hc := (checkRequired_none r required).2 hreq
  have hh := handleAll_ok r.entries NewServeMux (by simpa [NewServeMux, ServeMux.patterns]) hne
  simp only [NewServeMux, List.nil_append] at hh
  cases a
  simp only at hs hr
  subst hs hr
  simp only [Admin.generateMux, hc, NewServeMux, hh]

theorem routes_get?_of_not_required (k : String) (h : k ∉ required) : routes.get? k = none := by
  simp only [required, List.mem_cons, List.mem_singleton, List.not_mem_nil, or_false,
    not_or] at h
  obtain ⟨h1, h2, h3, h4, h5, h6⟩ := h
  have g1 : ¬ "index" = k := fun h => h1 h.symm
  have g2 : ¬ "list" = k := fun h => h2 h.symm
  have g3 : ¬ "update" = k := fun h => h3 h.symm
  have g4 : ¬ "create" = k := fun h => h4 h.symm
  have g5 : ¬ "detail" = k := fun h => h5 h.symm
  have g6 : ¬ "delete" = k := fun h => h6 h.symm
  simp [GoMap.get?, routes, GoMap.findEntry, g1, g2, g3, g4, g5, g6]

theorem mem_of_findEntry {κ ν : Type} [DecidableEq κ] (l : List (κ × ν)) (k : κ) (v : ν)
    (h : GoMap.findEntry k l = some v) : (k, v) ∈ l := by
  induction l with
  | nil => simp [GoMap.findEntry] at h
  | cons e es ih =>
    by_cases he : e.1 = k
    · simp only [GoMap.findEntry, he, if_true, Option.some.injEq] at h
      have : e = (k, v) := Prod.ext he h
      rw [this]
      exact List.mem_cons_self _ _
    · simp only [GoMap.findEntry, he, if_false] at h
      exact List.mem_cons_of_mem _ (ih h)

theorem handler?_registration (r : GoMap String String) (key path : String)
    (hnd : (r.entries.map Prod.snd).Nodup) (hm : (key, path) ∈ r.entries) :
    (ServeMux.mk (r.entries.map registration)).handler? path =
      some ⟨path, routes.get? key⟩ := by
  unfold ServeMux.handler?
  apply findEntry_of_mem
  · simpa [registration, Function.comp_def] using hnd
  · exact List.mem_map.2 ⟨(key, path), hm, rfl⟩

/-- C5: on an Admin that is not bound and has no Routes, generateMux returns without a panic,
Routes is then DefaultRoutes (which has all six required keys), and the installed route table
holds exactly the six registrations "/" for index, "/list/" for list, "/update/" for update,
"/create/" for create, "/detail/" for detail and "/delete/" for delete. In whatever order the
six default entries are visited, the table holds these six registrations and no other. -/
theorem C5_generateMux_default_routes (a : Admin) (hs : a.server = none)
    (hr : a.Routes = none) :
    a.generateMux =
      Outcome.done { a with Routes := some DefaultRoutes, server := some defaultMux } ∧
    checkRequired DefaultRoutes required = none ∧
    defaultMux.patterns = ["/", "/list/", "/update/", "/create/", "/detail/", "/delete/"] ∧
    defaultMux.handler? "/" = some ⟨"/", some adminHandler.index⟩ ∧
    defaultMux.handler? "/list/" = some ⟨"/list/", some adminHandler.list⟩ ∧
    defaultMux.handler? "/update/" = some ⟨"/update/", some adminHandler.update⟩ ∧
    defaultMux.handler? "/create/" = some ⟨"/create/", some adminHandler.create⟩ ∧
    defaultMux.handler? "/detail/" = some ⟨"/detail/", some adminHandler.detail⟩ ∧
    defaultMux.handler? "/delete/" = some ⟨"/delete/", some adminHandler.delete⟩ ∧
    ∀ r : GoMap String String, r.entries.Perm DefaultRoutes.entries →
      ∃ mux, ({ a with Routes := some r }).generateMux =
          Outcome.done { a with Routes := some r, server := some mux } ∧
        mux.m.Perm defaultMux.m := by
  refine ⟨?_, by decide, by decide, by decide, by decide, by decide, by decide, by decide,
    by decide, ?_⟩
  · cases a
    simp only at hs hr
    subst hs hr
    rfl
  · intro r hp
    refine ⟨ServeMux.mk (r.entries.map registration), ?_, ?_⟩
    · have hk : r.keys.Perm DefaultRoutes.keys := hp.map Prod.fst
      have hv : (r.entries.map Prod.snd).Perm (DefaultRoutes.entries.map Prod.snd) :=
        hp.map Prod.snd
      apply generateMux_binds { a with Routes := some r } r hs rfl
      · intro k hk2
        exact hk.mem_iff.2 (by revert k; decide)
      · exact hv.nodup_iff.2 (by decide)
      · intro e he
        have hall : ∀ x ∈ DefaultRoutes.entries, x.2 ≠ "" := by decide
        exact hall e (hp.mem_iff.1 he)
    · exact hp.map registration

/-- Instance of C5: the Admin with nothing configured but a session. -/
theorem C5_generateMux_default_routes_witness :
    mounted.generateMux =
      Outcome.done { mounted with Routes := some DefaultRoutes, server := some defaultMux } :=
  (C5_generateMux_default_routes mounted rfl rfl).1

theorem handleAll_done_paths (l : List (String × String)) (mux mux1 : ServeMux)
    (hm : mux.patterns.Nodup) (h : handleAll mux l = (mux1, none)) :
    (∀ e ∈ l, e.2 ≠ "") ∧ (mux.patterns ++ l.map Prod.snd).Nodup := by
  induction l generalizing mux with
  | nil => exact ⟨by simp, by simpa using hm⟩
  | cons e rest ih =>
    obtain ⟨key, path⟩ := e
    unfold handleAll at h
    by_cases h1 : path = ""
    · simp [ServeMux.Handle, h1] at h
    · by_cases h2 : path ∈ mux.patterns
      · simp [ServeMux.Handle, h1, h2] at h
      · simp only [ServeMux.Handle, h1, h2, if_false] at h
        have hm1 : (ServeMux.mk (mux.m ++ [(path, ⟨path, routes.get? key⟩)])).patterns.Nodup := by
          simp only [ServeMux.patterns, List.map_append, List.map_cons, List.map_nil]
          rw [List.nodup_append]
          refine ⟨hm, List.nodup_singleton path, ?_⟩
          intro x hx hx2
          rw [List.mem_singleton] at hx2
          exact h2 (hx2 ▸ hx)
        obtain ⟨g1, g2⟩ := ih _ hm1 h
        refine ⟨?_, ?_⟩
        · intro e he
          rcases List.mem_cons.1 he with rfl | he2
          · exact h1
          · exact g1 e he2
        · simpa [ServeMux.patterns] using g2

/-- Whenever `generateMux` binds a route map, its paths are pairwise distinct and non-empty:
in every other case the second loop panics, in whatever order the entries are visited. -/
theorem generateMux_done_paths (a a1 : Admin) (r : GoMap String String)
    (hs : a.server = none) (hr : a.Routes = some r) (h : a.generateMux = Outcome.done a1) :
    (r.entries.map Prod.snd).Nodup ∧ ∀ e ∈ r.entries, e.2 ≠ "" := by
  have key := generateMux_unbound a hs
  rw [hr, Option.getD_some] at key
  rw [key] at h
  split at h
  · cases h
  · split at h
    · rename_i mux hh
      obtain ⟨g1, g2⟩ := handleAll_done_paths r.entries NewServeMux mux (by decide) hh
      exact ⟨by simpa [NewServeMux, ServeMux.patterns] using g2, g1⟩
    · cases h

/-! ## Route binding: one registration per entry of the route map -/

/-- C10, as stated, fails: a route map with all six required keys and one more key is rejected
by the second loop when the extra path repeats a path ("/" twice) and when it is empty; the
panic comes from Handle, after the six earlier entries were registered. -/
theorem C10_counterexample_duplicate_or_empty_path :
    (adminDuplicatePath.server = none ∧
      (∀ k ∈ required, k ∈ routesDuplicatePath.keys) ∧
      "extra" ∈ routesDuplicatePath.keys ∧ "extra" ∉ required ∧
      adminDuplicatePath.generateMux =
        Outcome.panicked (Panic.muxMultipleRegistrations "/")
          { adminDuplicatePath with server := some defaultMux }) ∧
    (adminEmptyPath.server = none ∧
      (∀ k ∈ required, k ∈ routesEmptyPath.keys) ∧
      "extra" ∈ routesEmptyPath.keys ∧ "extra" ∉ required ∧
      adminEmptyPath.generateMux =
        Outcome.panicked Panic.muxInvalidPattern
          { adminEmptyPath with server := some defaultMux }) := by
  decide

/-- C10, amended: on an Admin that is not bound and whose route map has all six required keys
and pairwise distinct, non-empty paths, generateMux returns without a panic and registers one
pattern per entry of the map, namely its path: the patterns are the paths of the entries in
iteration order, as many as the map has entries; the path of every key that is not an action
name is registered with the nil adminHandler, and the path of each of the six action keys with
the adminHandler of that action. -/
theorem C10_generateMux_one_route_per_entry (a : Admin) (r : GoMap String String)
    (hs : a.server = none) (hr : a.Routes = some r)
    (hreq : ∀ k ∈ required, k ∈ r.keys)
    (hnd : (r.entries.map Prod.snd).Nodup) (hne : ∀ e ∈ r.entries, e.2 ≠ "") :
    ∃ mux, a.generateMux = Outcome.done { a with server := some mux } ∧
      mux.patterns = r.entries.map Prod.snd ∧
      mux.patterns.length = r.len ∧
      (∀ key path, (key, path) ∈ r.entries → key ∉ required →
        mux.handler? path = some ⟨path, none⟩) ∧
      (∀ path, r.get? "index" = some path →
        mux.handler? path = some ⟨path, some adminHandler.index⟩) ∧
      (∀ path, r.get? "list" = some path →
        mux.handler? path = some ⟨path, some adminHandler.list⟩) ∧
      (∀ path, r.get? "update" = some path →
        mux.handler? path = some ⟨path, some adminHandler.update⟩) ∧
      (∀ path, r.get? "create" = some path →
        mux.handler? path = some ⟨path, some adminHandler.create⟩) ∧
      (∀ path, r.get? "detail" = some path →
        mux.handler? path = some ⟨path, some adminHandler.detail⟩) ∧
      (∀ path, r.get? "delete" = some path →
        mux.handler? path = some ⟨path, some adminHandler.delete⟩) := by
  have act : ∀ key path, r.get? key = some path →
      (ServeMux.mk (r.entries.map registration)).handler? path =
        some ⟨path, routes.get? key⟩ :=
    fun key path h => handler?_registration r key path hnd (mem_of_findEntry _ _ _ h)
  refine ⟨ServeMux.mk (r.entries.map registration), generateMux_binds a r hs hr hreq hnd hne,
    ?_, ?_, ?_, fun path h => act "index" path h, fun path h => act "list" path h,
    fun path h => act "update" path h, fun path h => act "create" path h,
    fun path h => act "detail" path h, fun path h => act "delete" path h⟩
  · simp [ServeMux.patterns, registration, Function.comp_def]
  · simp [ServeMux.patterns, GoMap.len]
  · intro key path hm hk
    rw [handler?_registration r key path hnd hm, routes_get?_of_not_required key hk]

/-- Instance of C10: the default routes and the extra key "export" at "/export/". -/
theorem C10_generateMux_one_route_per_entry_witness :
    ∃ mux, adminExtraRoute.generateMux =
        Outcome.done { adminExtraRoute with server := some mux } ∧
      mux.patterns = routesExtra.entries.map Prod.snd ∧
      mux.patterns.length = 7 ∧
      mux.handler? "/export/" = some ⟨"/export/", none⟩ ∧
      mux.handler? "/list/" = some ⟨"/list/", some adminHandler.list⟩ := by
  obtain ⟨mux, h1, h2, h3, h4, _, h6, _⟩ :=
    C10_generateMux_one_route_per_entry adminExtraRoute routesExtra rfl rfl
      (by decide) (by decide) (by decide)
  exact ⟨mux, h1, h2, h3, h4 "export" "/export/" (by decide) (by decide), h6 "/list/" rfl⟩

/-! ## The navigation index

The loop of `generateIndexCache` keeps this invariant: the collections listed under a database
are exactly those of the keys visited so far, each listed once, and no list is empty. -/

theorem splitChars_of_not_mem (sep : Char) (cs : List Char) (h : sep ∉ cs) :
    splitChars sep cs = [cs] := by
  induction cs with
  | nil => rfl
  | cons c cs ih =>
    rw [List.mem_cons, not_or] at h
    have hc : ¬ c = sep := fun e => h.1 e.symm
    simp only [splitChars, hc, if_false, ih h.2]

theorem splitChars_of_count_one (sep : Char) (cs : List Char) (h : cs.count sep = 1) :
    ∃ p q, cs = p ++ sep :: q ∧ sep ∉ p ∧ sep ∉ q ∧ splitChars sep cs = [p, q] := by
  induction cs with
  | nil => simp at h
  | cons c cs ih =>
    by_cases hc : c = sep
    · subst hc
      rw [List.count_cons_self] at h
      have h0 : cs.count c = 0 := by omega
      have hn : c ∉ cs := List.count_eq_zero.1 h0
      refine ⟨[], cs, rfl, by simp, hn, ?_⟩
      simp only [splitChars, if_true, splitChars_of_not_mem c cs hn]
    · rw [List.count_cons_of_ne (fun e2 => hc e2.symm)] at h
      obtain ⟨p, q, e, hp, hq, hsplit⟩ := ih h
      refine ⟨c :: p, q, by rw [e]; rfl, ?_, hq, ?_⟩
      · rw [List.mem_cons, not_or]
        exact ⟨fun e2 => hc e2.symm, hp⟩
      · simp only [splitChars, hc, if_false, hsplit]

theorem decompose_unique (sep : Char) (p q p1 q1 : List Char)
    (h : p ++ sep :: q = p1 ++ sep :: q1) (hp : sep ∉ p) (hp1 : sep ∉ p1) :
    p = p1 ∧ q = q1 := by
  induction p generalizing p1 with
  | nil =>
    cases p1 with
    | nil => simpa using h
    | cons c cs =>
      simp only [List.nil_append, List.cons_append, List.cons.injEq] at h
      exact absurd (h.1 ▸ List.mem_cons_self _ _) hp1
  | cons d ds ih =>
    cases p1 with
    | nil =>
      simp only [List.nil_append, List.cons_append, List.cons.injEq] at h
      exact absurd (h.1 ▸ List.mem_cons_self _ _) hp
    | cons c cs =>
      simp only [List.cons_append, List.cons.injEq] at h
      rw [List.mem_cons, not_or] at hp hp1
      obtain ⟨e1, e2⟩ := ih cs h.2 hp.2 hp1.2
      exact ⟨by rw [h.1, e1], e2⟩

theorem GoMap.findEntry_setEntries {κ ν : Type} [DecidableEq κ] (k k1 : κ) (v : ν)
    (es : List (κ × ν)) :
    GoMap.findEntry k1 (GoMap.setEntries k v es) =
      if k = k1 then some v else GoMap.findEntry k1 es := by
  induction es with
  | nil => simp [GoMap.setEntries, GoMap.findEntry]
  | cons e es ih =>
    by_cases h : e.1 = k
    · by_cases h1 : k = k1
      · simp [GoMap.setEntries, GoMap.findEntry, h, h1]
      · have h2 : ¬ e.1 = k1 := fun e2 => h1 (h ▸ e2)
        simp [GoMap.setEntries, GoMap.findEntry, h, h1, h2]
    · by_cases h1 : e.1 = k1
      · have h2 : ¬ k = k1 := fun e2 => h (e2 ▸ h1)
        have h3 : ¬ k1 = k := fun e2 => h2 e2.symm
        simp [GoMap.setEntries, GoMap.findEntry, h1, h2, h3]
      · simp [GoMap.setEntries, GoMap.findEntry, h, h1, ih]

theorem GoMap.get?_set {κ ν : Type} [DecidableEq κ] (m : GoMap κ ν) (k k1 : κ) (v : ν) :
    (m.set k v).get? k1 = if k = k1 then some v else m.get? k1 :=
  GoMap.findEntry_setEntries k k1 v m.entries

/-- A collection key with exactly one separator splits into its two parts. -/
theorem Split_of_count_one (key : String) (h : key.data.count '.' = 1) :
    ∃ p0 p1 : String, key = p0 ++ "." ++ p1 ∧ '.' ∉ p0.data ∧ '.' ∉ p1.data ∧
      Split key '.' = [p0, p1] := by
  obtain ⟨p, q, e, hp, hq, hsplit⟩ := splitChars_of_count_one '.' key.data h
  refine ⟨⟨p⟩, ⟨q⟩, ?_, hp, hq, ?_⟩
  · apply String.ext
    rw [e]
    simp [String.data_append]
  · simp [Split, hsplit]

theorem string_append_left_cancel (s t u : String) : s ++ t = s ++ u ↔ t = u := by
  constructor
  · intro h
    have h2 := congrArg String.data h
    simp only [String.data_append] at h2
    exact String.ext (List.append_cancel_left h2)
  · intro h
    rw [h]

theorem typeKeys_nodup (a : Admin) : a.typeKeys.Nodup := by
  unfold Admin.typeKeys
  cases a.types with
  | none => exact List.nodup_nil
  | some t => exact t.nodup

theorem indexStep_ok (cache : GoMap String (List String)) (seen : List String) (key : String)
    (hk : key.data.count '.' = 1)
    (hinv : ((∀ db coll : String, coll ∈ (cache.get? db).getD [] ↔ (db ++ "." ++ coll) ∈ seen) ∧
      (∀ db l, cache.get? db = some l → l ≠ [] ∧ l.Nodup)))
    (hnew : key ∉ seen) :
    ∃ cache1, indexStep cache key = Except.ok cache1 ∧
      ((∀ db coll : String, coll ∈ (cache1.get? db).getD [] ↔ (db ++ "." ++ coll) ∈ (seen ++ [key])) ∧
      (∀ db l, cache1.get? db = some l → l ≠ [] ∧ l.Nodup)) := by
  obtain ⟨p0, p1, e, hp0, hp1, hsplit⟩ := Split_of_count_one key hk
  refine ⟨cache.set p0 ((cache.get? p0).getD [] ++ [p1]), by simp only [indexStep, hsplit], ?_, ?_⟩
  · intro db coll
    rw [GoMap.get?_set, List.mem_append, List.mem_singleton]
    by_cases hdb : p0 = db
    · subst hdb
      rw [if_pos rfl, Option.getD_some, List.mem_append, List.mem_singleton, hinv.1 p0 coll, e,
        string_append_left_cancel]
    · rw [if_neg hdb, hinv.1 db coll]
      constructor
      · exact fun h => Or.inl h
      · rintro (h | h)
        · exact h
        · exfalso
          have h2 := congrArg String.data (h.trans e)
          simp only [String.data_append] at h2
          have hd : ".".data = ['.'] := rfl
          simp only [List.append_assoc, List.singleton_append] at h2
          have hcount : (db.data ++ '.' :: coll.data).count '.' = 1 := by
            rw [h2, ← hk, e]
            simp [String.data_append, hd]
          have hdb0 : '.' ∉ db.data := by
            rw [List.count_append, List.count_cons_self] at hcount
            exact List.count_eq_zero.1 (by omega)
          exact hdb (String.ext (decompose_unique '.' _ _ _ _ h2 hdb0 hp0).1).symm
  · intro db l hl
    rw [GoMap.get?_set] at hl
    by_cases hdb : p0 = db
    · rw [if_pos hdb, Option.some.injEq] at hl
      subst hl
      refine ⟨by simp, ?_⟩
      have hnot : p1 ∉ (cache.get? p0).getD [] := by
        rw [hinv.1 p0 p1, ← e]
        exact hnew
      have hold : ((cache.get? p0).getD []).Nodup := by
        cases hg : cache.get? p0 with
        | none => exact List.nodup_nil
        | some old => exact (hinv.2 p0 old hg).2
      rw [List.nodup_append]
      refine ⟨hold, List.nodup_singleton p1, ?_⟩
      intro x hx hx2
      rw [List.mem_singleton] at hx2
      exact hnot (hx2 ▸ hx)
    · rw [if_neg hdb] at hl
      exact hinv.2 db l hl

theorem indexLoop_ok (rest : List String) (cache : GoMap String (List String))
    (seen : List String) (hk : ∀ k ∈ rest, k.data.count '.' = 1)
    (hinv : ((∀ db coll : String, coll ∈ (cache.get? db).getD [] ↔ (db ++ "." ++ coll) ∈ seen) ∧
      (∀ db l, cache.get? db = some l → l ≠ [] ∧ l.Nodup)))
    (hnd : (seen ++ rest).Nodup) :
    ∃ cache1, indexLoop cache rest = (cache1, none) ∧
      ((∀ db coll : String, coll ∈ (cache1.get? db).getD [] ↔ (db ++ "." ++ coll) ∈ (seen ++ rest)) ∧
      (∀ db l, cache1.get? db = some l → l ≠ [] ∧ l.Nodup)) := by
  induction rest generalizing cache seen with
  | nil => exact ⟨cache, rfl, by simpa using hinv⟩
  | cons key rest ih =>
    have hnew : key ∉ seen := by
      intro hin
      rw [List.nodup_append] at hnd
      exact hnd.2.2 hin (List.mem_cons_self _ _)
    obtain ⟨cache1, hstep, hinv1⟩ :=
      indexStep_ok cache seen key (hk key (List.mem_cons_self _ _)) hinv hnew
    obtain ⟨cache2, hloop, hinv2⟩ :=
      ih cache1 (seen ++ [key]) (fun k h => hk k (List.mem_cons_of_mem _ h)) hinv1
        (by simpa using hnd)
    refine ⟨cache2, ?_, by simpa using hinv2⟩
    simp only [indexLoop, hstep, hloop]

/-- A key `p.q` whose parts hold no separator has one decomposition only. -/
theorem key_eq_iff (k c p q : String) (hp : '.' ∉ p.data) (hq : '.' ∉ q.data) :
    k ++ "." ++ c = p ++ "." ++ q ↔ k = p ∧ c = q := by
  constructor
  · intro h
    have h2 := congrArg String.data h
    simp only [String.data_append] at h2
    simp only [List.append_assoc, List.singleton_append] at h2
    have hcount : (k.data ++ '.' :: c.data).count '.' = 1 := by
      rw [h2, List.count_append, List.count_cons_self, List.count_eq_zero.2 hp,
        List.count_eq_zero.2 hq]
    have hk0 : '.' ∉ k.data := by
      rw [List.count_append, List.count_cons_self] at hcount
      exact List.count_eq_zero.1 (by omega)
    obtain ⟨e1, e2⟩ := decompose_unique '.' _ _ _ _ h2 hk0 hp
    exact ⟨String.ext e1, String.ext e2⟩
  · rintro ⟨rfl, rfl⟩
    rfl

theorem sample_keys_iff (k c : String) :
    k ++ "." ++ c ∈ ["db.coll", "db.other", "db2.x"] ↔
      (k = "db" ∧ (c = "coll" ∨ c = "other")) ∨ (k = "db2" ∧ c = "x") := by
  have e1 : ("db.coll" : String) = "db" ++ "." ++ "coll" := by decide
  have e2 : ("db.other" : String) = "db" ++ "." ++ "other" := by decide
  have e3 : ("db2.x" : String) = "db2" ++ "." ++ "x" := by decide
  simp only [List.mem_cons, List.mem_singleton, List.not_mem_nil, or_false]
  rw [e1, e2, e3, key_eq_iff k c "db" "coll" (by decide) (by decide),
    key_eq_iff k c "db" "other" (by decide) (by decide),
    key_eq_iff k c "db2" "x" (by decide) (by decide)]
  tauto

theorem get?_of_mem_getD {κ ν : Type} [DecidableEq κ] (m : GoMap κ (List ν)) (k : κ) (x : ν)
    (h : x ∈ (m.get? k).getD []) : ∃ l, m.get? k = some l ∧ x ∈ l := by
  cases hg : m.get? k with
  | none => simp [hg] at h
  | some l => exact ⟨l, rfl, by simpa [hg] using h⟩

/-- C3: with index_cache nil and every key of types of the form db.coll with one separator,
generateIndexCache returns without a panic and installs an index in which coll is listed under
db exactly when "db.coll" is a key of types (for all strings db and coll), every list is free
of repetitions and no list is empty. For the keys "db.coll", "db.other" and "db2.x", visited in
any order, the index has the databases "db" and "db2", lists "coll" and "other" under "db" in
some order, and lists "x" under "db2". -/
theorem C3_generateIndexCache_groups_by_database (a : Admin) (hic : a.index_cache = none)
    (hkeys : ∀ k ∈ a.typeKeys, k.data.count '.' = 1) :
    ∃ cache, a.generateIndexCache = Outcome.done { a with index_cache := some cache } ∧
      (∀ db coll : String, coll ∈ (cache.get? db).getD [] ↔ (db ++ "." ++ coll) ∈ a.typeKeys) ∧
      (∀ db l, cache.get? db = some l → l ≠ [] ∧ l.Nodup) ∧
      (a.typeKeys.Perm ["db.coll", "db.other", "db2.x"] →
        cache.keys.Perm ["db", "db2"] ∧
        (∃ l, cache.get? "db" = some l ∧ l.Perm ["coll", "other"]) ∧
        cache.get? "db2" = some ["x"]) := by
  have hempty : ((∀ db coll : String, coll ∈ ((GoMap.empty : GoMap String (List String)).get? db).getD [] ↔ (db ++ "." ++ coll) ∈ ([] : List String)) ∧
      (∀ db l, (GoMap.empty : GoMap String (List String)).get? db = some l → l ≠ [] ∧ l.Nodup)) :=
    ⟨fun db coll => by simp [GoMap.get?, GoMap.empty, GoMap.findEntry],
     fun db l h => by simp [GoMap.get?, GoMap.empty, GoMap.findEntry] at h⟩
  obtain ⟨cache, hloop, hinv⟩ :=
    indexLoop_ok a.typeKeys GoMap.empty [] hkeys hempty (by simpa using typeKeys_nodup a)
  rw [List.nil_append] at hinv
  refine ⟨cache, ?_, hinv.1, hinv.2, ?_⟩
  · unfold Admin.generateIndexCache
    rw [hic]
    simp only [hloop]
  · intro hp
    have hmem : ∀ k c : String, c ∈ (cache.get? k).getD [] ↔
        (k = "db" ∧ (c = "coll" ∨ c = "other")) ∨ (k = "db2" ∧ c = "x") := by
      intro k c
      rw [hinv.1 k c, hp.mem_iff, sample_keys_iff]
    have hdb : ∃ l, cache.get? "db" = some l ∧ l.Perm ["coll", "other"] := by
      obtain ⟨l, hl, _⟩ := get?_of_mem_getD cache "db" "coll" ((hmem "db" "coll").2 (by decide))
      refine ⟨l, hl, ?_⟩
      rw [List.perm_ext_iff_of_nodup (hinv.2 "db" l hl).2 (by decide)]
      intro c
      have := hmem "db" c
      rw [hl, Option.getD_some] at this
      rw [this]
      simp
    have hdb2 : cache.get? "db2" = some ["x"] := by
      obtain ⟨l, hl, _⟩ := get?_of_mem_getD cache "db2" "x" ((hmem "db2" "x").2 (by decide))
      rw [hl, Option.some.injEq]
      apply List.perm_singleton.1
      rw [List.perm_ext_iff_of_nodup (hinv.2 "db2" l hl).2 (by decide)]
      intro c
      have := hmem "db2" c
      rw [hl, Option.getD_some] at this
      rw [this]
      simp
    refine ⟨?_, hdb, hdb2⟩
    have hn : (["db", "db2"] : List String).Nodup := by decide
    have hkn : cache.keys.Nodup := cache.nodup
    rw [List.perm_ext_iff_of_nodup hkn hn]
    intro k
    rw [← GoMap.contains_iff]
    constructor
    · intro hc
      cases hg : cache.get? k with
      | none => simp [GoMap.contains, hg] at hc
      | some l =>
        obtain ⟨c, hcl⟩ := List.exists_mem_of_ne_nil l (hinv.2 k l hg).1
        have := (hmem k c).1 (by rw [hg]; exact hcl)
        rcases this with ⟨h1, _⟩ | ⟨h1, _⟩ <;> simp [h1]
    · intro hk
      simp only [List.mem_cons, List.mem_singleton, List.not_mem_nil, or_false] at hk
      rcases hk with rfl | rfl
      · obtain ⟨l, hl, _⟩ := hdb
        simp [GoMap.contains, hl]
      · simp [GoMap.contains, hdb2]

/-- Instance of C3: the registry with the keys "db.coll", "db2.x" and "db.other", visited in
this order; the index built is "db" with "coll" and "other", and "db2" with "x". -/
theorem C3_generateIndexCache_groups_by_database_witness :
    registered.generateIndexCache =
      Outcome.done { registered with index_cache := some sampleIndex } ∧
    ∃ cache, registered.generateIndexCache =
        Outcome.done { registered with index_cache := some cache } ∧
      (∀ db coll : String,
        coll ∈ (cache.get? db).getD [] ↔ (db ++ "." ++ coll) ∈ registered.typeKeys) ∧
      (∀ db l, cache.get? db = some l → l ≠ [] ∧ l.Nodup) ∧
      (registered.typeKeys.Perm ["db.coll", "db.other", "db2.x"] →
        cache.keys.Perm ["db", "db2"] ∧
        (∃ l, cache.get? "db" = some l ∧ l.Perm ["coll", "other"]) ∧
        cache.get? "db2" = some ["x"]) :=
  ⟨by decide, C3_generateIndexCache_groups_by_database registered rfl (by decide)⟩

end admin
